import Mathlib

/-!
Verification development for the pkg-config build-helper crate
(`src/lib.rs`).  The Rust source is shallowly embedded here:

* bytes are `Nat` (the source works on `&[u8]`),
* the process environment is a function `String → Option String`
  (`env::var` / `env::var_os`, with the UTF-8 distinction ignored),
* the filesystem is an oracle `String → Bool` (`Path::exists`),
* the external process runner is an oracle `Cmd → Except String Output`
  (`Command::output`), and
* the `target_os = "macos"` compile-time switch is an explicit `Bool`.

The `cargo:rerun-if-env-changed` side channel of `Config::env_var` is a
pure bookkeeping effect and is not modelled; `cargo:` metadata lines
printed by `print_metadata` are modelled as an explicit output list.
-/

namespace PkgConfig

/-! ## FlagTokenizer: `split_flags` (src/lib.rs lines 631-660) -/

/-- Word separators of `split_flags`: tab, newline, carriage return, space. -/
def sepByte (b : Nat) : Bool :=
  b = 9 || b = 10 || b = 13 || b = 32

/-- Loop of `split_flags`: `word` is the byte accumulator of the current
word, `escaped` the flag set by a backslash (byte 92).  Finished words are
emitted eagerly instead of being pushed onto a vector; the order is the
same as in the source. -/
def splitFlagsGo : List Nat → List Nat → Bool → List (List Nat)
  | [], word, _ => if word = [] then [] else [word]
  | b :: rest, word, escaped =>
    if escaped then splitFlagsGo rest (word ++ [b]) false
    else if b = 92 then splitFlagsGo rest word true
    else if sepByte b then
      (if word = [] then [] else [word]) ++ splitFlagsGo rest [] false
    else splitFlagsGo rest (word ++ [b]) false

/-- Embeds `split_flags`: split pkg-config output into words.  The source
decodes each finished word with `String::from_utf8(..).unwrap()`; here the
words stay byte lists and are decoded only where the classifier needs
strings. -/
def split_flags (output : List Nat) : List (List Nat) :=
  splitFlagsGo output [] false

/-! ### Specification-level tokenizer (for the refinement claim about
escaping).  Modelled from the spec's words, not from the source: first
every backslash-escape is resolved into a literal byte marked as escaped
(the escaping backslash disappears; a trailing lone backslash escapes
nothing), then the stream is split at unescaped separator bytes, and
finally empty words are dropped. -/

/-- Resolve escapes: each byte is paired with a flag saying whether it was
preceded by an escaping backslash. -/
def unescape : List Nat → List (Nat × Bool)
  | [] => []
  | b :: rest =>
    if b = 92 then
      match rest with
      | [] => []
      | c :: rest2 => (c, true) :: unescape rest2
    else (b, false) :: unescape rest

/-- Split a resolved stream at unescaped separators, keeping empty chunks
(they are filtered afterwards).  The result is always nonempty. -/
def splitWords : List (Nat × Bool) → List (List Nat)
  | [] => [[]]
  | (b, esc) :: rest =>
    if !esc && sepByte b then [] :: splitWords rest
    else
      match splitWords rest with
      | [] => [[b]]
      | w :: ws => (b :: w) :: ws

/-- Spec-level tokenizer: resolve escapes, split at unescaped separators,
drop empty words. -/
def specSplitFlags (output : List Nat) : List (List Nat) :=
  (splitWords (unescape output)).filter (fun w => !w.isEmpty)

/-- Join tokens with single spaces (byte 32); used to state the
rejoin-and-retokenize claim. -/
def joinSpace : List (List Nat) → List Nat
  | [] => []
  | [w] => w
  | w :: ws => w ++ 32 :: joinSpace ws

/-- Prepend a partial word onto the first chunk of a chunk list. -/
def prependFirst (w : List Nat) : List (List Nat) → List (List Nat)
  | [] => [w]
  | c :: cs => (w ++ c) :: cs

/-! ## Data model (src/lib.rs lines 87-151) -/

/-- Embeds `enum Statik { No, Yes, Force }`: dynamic, static when a static
archive is available, static unconditionally. -/
inductive Statik
  | no
  | yes
  | force
  deriving DecidableEq

/-- Embeds `impl From<bool> for Statik`. -/
def Statik.fromBool (o : Bool) : Statik :=
  match o with
  | true => Statik.yes
  | false => Statik.no

/-- Embeds `struct Config` (src/lib.rs lines 103-112). -/
structure Config where
  statik : Option Statik
  statik_blacklist : List String
  atleast_version : Option String
  extra_args : List String
  cargo_metadata : Bool
  env_metadata : Bool
  print_system_libs : Bool
  deriving DecidableEq

/-- Embeds `Config::new` (src/lib.rs lines 281-291). -/
def Config.new : Config :=
  { statik := none
    statik_blacklist := []
    atleast_version := none
    extra_args := []
    print_system_libs := true
    cargo_metadata := true
    env_metadata := false }

/-- Embeds `HashMap::insert` on the defines map: add or replace the
binding for `k` (an association list stands in for the hash map; only
lookup semantics are observable). -/
def insertDefine (m : List (String × Option String)) (k : String) (v : Option String) :
    List (String × Option String) :=
  (m.filter (fun p => p.1 != k)) ++ [(k, v)]

/-- Lookup in the defines map. -/
def lookupDefine (m : List (String × Option String)) (k : String) :
    Option (Option String) :=
  (m.find? (fun p => p.1 == k)).map Prod.snd

/-- Embeds `struct Library` (src/lib.rs lines 115-124); paths are kept as
the strings the flags carried (`PathBuf::from(val)`). -/
structure Library where
  libs : List String
  link_paths : List String
  frameworks : List String
  framework_paths : List String
  include_paths : List String
  defines : List (String × Option String)
  version : String
  deriving DecidableEq

/-- Embeds `Library::new` (src/lib.rs lines 488-499). -/
def Library.new : Library :=
  { libs := []
    link_paths := []
    include_paths := []
    frameworks := []
    framework_paths := []
    defines := []
    version := "" }

/-- The process environment: a set variable maps to its value.  Stands for
both `env::var` and `env::var_os` (the UTF-8 distinction is dropped). -/
def Env : Type := String → Option String

/-- Embeds `envify` (src/lib.rs lines 584-588): ASCII upper-case the name
and replace `-` with `_`. -/
def envify (name : String) : String :=
  String.mk (name.data.map (fun c =>
    let c2 := c.toUpper
    if c2 = '-' then '_' else c2))

/-- Embeds `target_supported` (src/lib.rs lines 78-85): unset `TARGET` or
`HOST` default to the empty string. -/
def target_supported (env : Env) : Bool :=
  let target := (env "TARGET").getD ""
  let host := (env "HOST").getD ""
  host == target || (env "PKG_CONFIG_ALLOW_CROSS").isSome

/-- Embeds `Config::statik_blacklist_contains` (src/lib.rs lines 315-319). -/
def Config.statik_blacklist_contains (cfg : Config) (val : String) : Bool :=
  cfg.statik_blacklist.any (fun s => s == val)

/-- Embeds `Config::env_var` (src/lib.rs lines 409-414); its
`cargo:rerun-if-env-changed` side channel is bookkeeping only and is not
modelled. -/
def Config.env_var (_cfg : Config) (env : Env) (name : String) : Option String :=
  env name

/-- Embeds `Config::infer_static` (src/lib.rs lines 469-484). -/
def Config.infer_static (cfg : Config) (env : Env) (name : String) : Statik :=
  let name := envify name
  if (cfg.env_var env (name ++ "_STATIC_FORCE")).isSome then Statik.force
  else if (cfg.env_var env (name ++ "_STATIC")).isSome then Statik.yes
  else if (cfg.env_var env (name ++ "_DYNAMIC")).isSome then Statik.no
  else if (cfg.env_var env "PKG_CONFIG_ALL_STATIC").isSome then Statik.yes
  else if (cfg.env_var env "PKG_CONFIG_ALL_DYNAMIC").isSome then Statik.no
  else Statik.no

/-- Embeds `Config::is_static` (src/lib.rs lines 423-432). -/
def Config.is_static (cfg : Config) (env : Env) (name : String) : Statik :=
  if cfg.statik_blacklist_contains name then Statik.no
  else
    match cfg.statik with
    | some statik => statik
    | none => cfg.infer_static env name

/-- Embeds `Config::targetted_env_var` (src/lib.rs lines 394-407); the
`?` on the `HOST` lookup aborts the whole lookup when `HOST` is unset. -/
def Config.targetted_env_var (cfg : Config) (env : Env) (var_base : String) :
    Option String :=
  match env "TARGET" with
  | some target =>
    match env "HOST" with
    | none => none
    | some host =>
      let kind := if host = target then "HOST" else "TARGET"
      let target_u := target.replace "-" "_"
      ((((cfg.env_var env (var_base ++ "_" ++ target)).orElse
        (fun _ => cfg.env_var env (var_base ++ "_" ++ target_u))).orElse
        (fun _ => cfg.env_var env (kind ++ "_" ++ var_base))).orElse
        (fun _ => cfg.env_var env var_base))
  | none => cfg.env_var env var_base

/-- First set variable wins; modelled from the spec's words for the
lookup-order claim. -/
def firstSome : List (Option String) → Option String
  | [] => none
  | o :: rest =>
    match o with
    | some v => some v
    | none => firstSome rest

/-! ## CommandBuilder (src/lib.rs lines 434-461) -/

/-- A constructed `std::process::Command`: executable, arguments in order,
and the environment entries explicitly set on it. -/
structure Cmd where
  exe : String
  args : List String
  envs : List (String × String)
  deriving DecidableEq

/-- Embeds `Command::new`. -/
def Cmd.new (exe : String) : Cmd :=
  { exe := exe, args := [], envs := [] }

/-- Embeds `Command::arg`. -/
def Cmd.arg (c : Cmd) (a : String) : Cmd :=
  { c with args := c.args ++ [a] }

/-- Embeds `Command::args`. -/
def Cmd.addArgs (c : Cmd) (as : List String) : Cmd :=
  { c with args := c.args ++ as }

/-- Embeds `Command::env` (each key is set at most once here, so the
map-overwrite semantics and list-append semantics agree). -/
def Cmd.setEnv (c : Cmd) (k v : String) : Cmd :=
  { c with envs := c.envs ++ [(k, v)] }

/-- Embeds `Config::command` (src/lib.rs lines 434-461), line by line. -/
def Config.command (cfg : Config) (env : Env) (name : String) (args : List String) : Cmd :=
  let exe := (cfg.env_var env "PKG_CONFIG").getD "pkg-config"
  let cmd := Cmd.new exe
  let cmd := if cfg.is_static env name ≠ Statik.no then cmd.arg "--static" else cmd
  let cmd := (cmd.addArgs args).addArgs cfg.extra_args
  let cmd := match cfg.targetted_env_var env "PKG_CONFIG_PATH" with
    | some value => cmd.setEnv "PKG_CONFIG_PATH" value
    | none => cmd
  let cmd := match cfg.targetted_env_var env "PKG_CONFIG_LIBDIR" with
    | some value => cmd.setEnv "PKG_CONFIG_LIBDIR" value
    | none => cmd
  let cmd := match cfg.targetted_env_var env "PKG_CONFIG_SYSROOT_DIR" with
    | some value => cmd.setEnv "PKG_CONFIG_SYSROOT_DIR" value
    | none => cmd
  let cmd := if cfg.print_system_libs then cmd.setEnv "PKG_CONFIG_ALLOW_SYSTEM_LIBS" "1" else cmd
  match cfg.atleast_version with
  | some version => cmd.arg (name ++ " >= " ++ version)
  | none => cmd.arg name

/-- Embeds `Config::print_metadata` (src/lib.rs lines 463-467): the
printed lines are returned instead of written to stdout. -/
def Config.print_metadata (cfg : Config) (s : String) : List String :=
  if cfg.cargo_metadata then ["cargo:" ++ s] else []

/-! ## FlagClassifier (src/lib.rs lines 501-582) and the static
availability check (lines 591-603) -/

/-- Helper for `str::contains`: does the haystack start with the needle? -/
def startsWithChars : List Char → List Char → Bool
  | _, [] => true
  | [], _ :: _ => false
  | a :: as, b :: bs => a == b && startsWithChars as bs

/-- Embeds `str::split(c)`: split at every occurrence of `c`, keeping
empty segments; never returns the empty list. -/
def splitOnChar (c : Char) : List Char → List (List Char)
  | [] => [[]]
  | b :: rest =>
    if b = c then [] :: splitOnChar c rest
    else
      match splitOnChar c rest with
      | [] => [[b]]
      | w :: ws => (b :: w) :: ws

/-- Components of a path as `Path::components` sees them: a root marker
for absolute paths, then the nonempty `/`-separated parts. -/
def pathComponents (p : String) : List String :=
  (if startsWithChars p.data ['/'] then ["/"] else [])
    ++ ((splitOnChar '/' p.data).map String.mk).filter (fun s => s != "")

/-- Embeds `Path::starts_with`: component-wise prefix. -/
def pathStartsWith (p base : String) : Bool :=
  (pathComponents base).isPrefixOf (pathComponents p)

/-- Embeds `Path::join` for a relative file name. -/
def pathJoin (dir file : String) : String :=
  dir ++ "/" ++ file

/-- Embeds `is_static_available` (src/lib.rs lines 591-603); `macos` is
the compile-time `cfg!(target_os = "macos")` switch and `fs` the
`Path::exists` oracle. -/
def is_static_available (macos : Bool) (fs : String → Bool) (name : String)
    (dirs : List String) : Bool :=
  let libname := "lib" ++ name ++ ".a"
  let system_roots := if macos then ["/Library", "/System"] else ["/usr"]
  dirs.any (fun dir =>
    !(system_roots.any (fun sys => pathStartsWith dir sys)) && fs (pathJoin dir libname))

/-- Embeds `str::contains` for a nonempty needle. -/
def containsSub : List Char → List Char → Bool
  | [], needle => needle.isEmpty
  | a :: rest, needle => startsWithChars (a :: rest) needle || containsSub rest needle

/-- State threaded through the first classifier pass: the library being
populated, the `-L` directories seen so far (the local `dirs` vector), and
the metadata lines printed so far. -/
structure ParseSt where
  lib : Library
  dirs : List String
  metaLines : List String
  deriving DecidableEq

/-- Embeds the `parts` computation of `parse_libs_cflags` (src/lib.rs
lines 510-513): keep tokens longer than two bytes and split off the
two-byte flag head (tokens are assumed ASCII, where byte and character
counts agree). -/
def partsOf (words : List String) : List (String × String) :=
  (words.filter (fun l => decide (l.length > 2))).map (fun arg => (arg.take 2, arg.drop 2))

/-- Embeds the body of the `for &(flag, val) in &parts` loop of
`parse_libs_cflags` (src/lib.rs lines 517-559). -/
def parseFlagStep (cfg : Config) (is_msvc : Bool) (statik : Statik) (macos : Bool)
    (fs : String → Bool) (st : ParseSt) (p : String × String) : ParseSt :=
  let flag := p.1
  let val := p.2
  if flag = "-L" then
    { st with
      metaLines := st.metaLines ++ cfg.print_metadata ("rustc-link-search=native=" ++ val)
      dirs := st.dirs ++ [val]
      lib := { st.lib with link_paths := st.lib.link_paths ++ [val] } }
  else if flag = "-F" then
    { st with
      metaLines := st.metaLines ++ cfg.print_metadata ("rustc-link-search=framework=" ++ val)
      lib := { st.lib with framework_paths := st.lib.framework_paths ++ [val] } }
  else if flag = "-I" then
    { st with lib := { st.lib with include_paths := st.lib.include_paths ++ [val] } }
  else if flag = "-l" then
    if is_msvc && (val == "m" || val == "c" || val == "pthread") then st
    else
      let static_flag :=
        (match statik with
          | Statik.force => true
          | Statik.yes => is_static_available macos fs val st.dirs
          | Statik.no => false)
        && !(cfg.statik_blacklist_contains val)
      { st with
        metaLines := st.metaLines ++ cfg.print_metadata
          (if static_flag then "rustc-link-lib=static=" ++ val
            else "rustc-link-lib=" ++ val)
        lib := { st.lib with libs := st.lib.libs ++ [val] } }
  else if flag = "-D" then
    let pieces := splitOnChar '=' val.data
    let defines2 :=
      insertDefine st.lib.defines (String.mk (pieces.headD [])) ((pieces[1]?).map String.mk)
    { st with lib := { st.lib with defines := defines2 } }
  else st

/-- Embeds the `-Wl,` expansion of the second pass (src/lib.rs lines
561-566): a token starting with `-Wl,` is replaced by its remainder split
on commas. -/
def expandWl (words : List String) : List String :=
  words.flatMap (fun arg =>
    if startsWithChars arg.data "-Wl,".data then
      (splitOnChar ',' (arg.data.drop 4)).map String.mk
    else [arg])

/-- Embeds the `while let Some(part) = iter.next()` scan of the second
pass (src/lib.rs lines 567-576): a `-framework` token consumes the next
token as the framework name. -/
def frameworkScan : List String → List String
  | [] => []
  | part :: rest =>
    if part = "-framework" then
      match rest with
      | lib :: rest2 => lib :: frameworkScan rest2
      | [] => []
    else frameworkScan rest

/-- Embeds the `is_msvc` computation of `parse_libs_cflags` (src/lib.rs
lines 502-507): does the `TARGET` triple contain `msvc`? -/
def msvcOf (env : Env) : Bool :=
  match env "TARGET" with
  | some t => containsSub t.data "msvc".data
  | none => false

/-- The first pass of `parse_libs_cflags` (src/lib.rs lines 509-559) as a
fold of `parseFlagStep` over the flag/value pairs. -/
def parsePass1 (cfg : Config) (env : Env) (macos : Bool) (fs : String → Bool)
    (name : String) (self : Library) (words : List String) : ParseSt :=
  (partsOf words).foldl (parseFlagStep cfg (msvcOf env) (cfg.is_static env name) macos fs)
    { lib := self, dirs := [], metaLines := [] }

/-- Embeds `Library::parse_libs_cflags` (src/lib.rs lines 501-577) on an
already tokenized word list; returns the populated library and the
metadata lines printed. -/
def Library.parse_libs_cflags (self : Library) (cfg : Config) (env : Env) (macos : Bool)
    (fs : String → Bool) (name : String) (words : List String) : Library × List String :=
  let st := parsePass1 cfg env macos fs name self words
  let fws := frameworkScan (expandWl words)
  ({ st.lib with frameworks := st.lib.frameworks ++ fws },
    st.metaLines ++ fws.flatMap (fun lib => cfg.print_metadata ("rustc-link-lib=framework=" ++ lib)))

/-- Embeds `Library::parse_modversion` (src/lib.rs lines 579-581). -/
def Library.parse_modversion (self : Library) (output : String) : Library :=
  { self with version := self.version ++ output.trim }

/-! ## ErrorModel and probe orchestration (src/lib.rs lines 126-151,
369-386, 605-622) -/

/-- Captured output of the external tool (`std::process::Output`):
exit-status success flag, stdout and stderr bytes. -/
structure Output where
  success : Bool
  stdout : List Nat
  stderr : List Nat
  deriving DecidableEq

/-- Embeds `enum Error`.  The source stores `format!("{:?}", cmd)`, a
textual rendering of the attempted command; the command value itself is
carried here.  `nonexhaustive` embeds the reserved `__Nonexhaustive`
variant, never constructed. -/
inductive Err
  | envNoPkgConfig (name : String)
  | crossCompilation
  | command (command : Cmd) (cause : String)
  | failure (command : Cmd) (output : Output)
  | nonexhaustive
  deriving DecidableEq

/-- The external process runner (`Command::output`): spawn failure carries
the io error cause. -/
def Runner : Type := Cmd → Except String Output

/-- Embeds `run` (src/lib.rs lines 605-622). -/
def run (runner : Runner) (cmd : Cmd) : Except Err (List Nat) :=
  match runner cmd with
  | Except.ok output =>
    if output.success then Except.ok output.stdout
    else Except.error (Err.failure cmd output)
  | Except.error cause => Except.error (Err.command cmd cause)

/-- Embeds `str::from_utf8(..).unwrap()` byte-for-byte; exact on the ASCII
output the tool produces (the spec assumes decoding always succeeds). -/
def decodeBytes (bs : List Nat) : String :=
  String.mk (bs.map Char.ofNat)

/-- Embeds `Config::probe` (src/lib.rs lines 369-386). -/
def Config.probe (cfg : Config) (env : Env) (macos : Bool) (fs : String → Bool)
    (runner : Runner) (name : String) : Except Err Library :=
  let abort_var_name := envify name ++ "_NO_PKG_CONFIG"
  if (env abort_var_name).isSome then Except.error (Err.envNoPkgConfig abort_var_name)
  else if !(target_supported env) then Except.error Err.crossCompilation
  else
    match run runner (cfg.command env name ["--libs", "--cflags"]) with
    | Except.error e => Except.error e
    | Except.ok output =>
      let library := (Library.new.parse_libs_cflags cfg env macos fs name
        ((split_flags output).map decodeBytes)).1
      match run runner (cfg.command env name ["--modversion"]) with
      | Except.error e => Except.error e
      | Except.ok output2 =>
        Except.ok (library.parse_modversion (decodeBytes output2))

theorem unescape_cons_ne (b : Nat) (rest : List Nat) (hb : ¬ b = 92) :
    unescape (b :: rest) = (b, false) :: unescape rest := by
  rw [unescape.eq_def]
  simp [hb]

theorem splitWords_ne_nil (l : List (Nat × Bool)) : splitWords l ≠ [] := by
  cases l with
  | nil => simp [splitWords]
  | cons hd tl =>
    obtain ⟨b, esc⟩ := hd
    simp only [splitWords]
    split
    · simp
    · cases h : splitWords tl <;> simp

theorem splitFlagsGo_spec (n : Nat) : ∀ out word, out.length ≤ n →
    splitFlagsGo out word false =
      (prependFirst word (splitWords (unescape out))).filter (fun w => !w.isEmpty) := by
  induction n with
  | zero =>
    intro out word h
    have : out = [] := List.eq_nil_of_length_eq_zero (Nat.le_zero.mp h)
    subst this
    simp only [splitFlagsGo, unescape, splitWords, prependFirst, List.append_nil]
    cases word <;> simp
  | succ n ih =>
    intro out word h
    cases out with
    | nil =>
      simp only [splitFlagsGo, unescape, splitWords, prependFirst, List.append_nil]
      cases word <;> simp
    | cons b rest =>
      by_cases hb : b = 92
      · subst hb
        cases rest with
        | nil =>
          simp only [splitFlagsGo, unescape, splitWords, prependFirst, List.append_nil]
          cases word <;> simp [splitFlagsGo]
        | cons c rest2 =>
          have hlen : rest2.length ≤ n := by
            simp only [List.length_cons] at h
            omega
          have step : splitFlagsGo (92 :: c :: rest2) word false
              = splitFlagsGo rest2 (word ++ [c]) false := by
            simp [splitFlagsGo]
          rw [step, ih rest2 (word ++ [c]) hlen]
          have hu : unescape (92 :: c :: rest2) = (c, true) :: unescape rest2 := by
            simp [unescape]
          rw [hu]
          obtain ⟨w, ws, hw⟩ :
              ∃ w ws, splitWords (unescape rest2) = w :: ws := by
            cases hsw : splitWords (unescape rest2) with
            | nil => exact absurd hsw (splitWords_ne_nil _)
            | cons w ws => exact ⟨w, ws, rfl⟩
          rw [hw]
          simp [splitWords, hw, prependFirst]
      · have hrest : rest.length ≤ n := by
          simp only [List.length_cons] at h
          omega
        have hu : unescape (b :: rest) = (b, false) :: unescape rest :=
          unescape_cons_ne b rest hb
        by_cases hs : sepByte b = true
        · have step : splitFlagsGo (b :: rest) word false
              = (if word = [] then [] else [word]) ++ splitFlagsGo rest [] false := by
            simp [splitFlagsGo, hb, hs]
          rw [step, ih rest [] hrest, hu]
          obtain ⟨w, ws, hw⟩ :
              ∃ w ws, splitWords (unescape rest) = w :: ws := by
            cases hsw : splitWords (unescape rest) with
            | nil => exact absurd hsw (splitWords_ne_nil _)
            | cons w ws => exact ⟨w, ws, rfl⟩
          have hsw2 : splitWords ((b, false) :: unescape rest)
              = [] :: splitWords (unescape rest) := by
            simp [splitWords, hs]
          rw [hsw2, hw]
          cases word <;> simp [prependFirst]
        · have step : splitFlagsGo (b :: rest) word false
              = splitFlagsGo rest (word ++ [b]) false := by
            simp [splitFlagsGo, hb, hs]
          rw [step, ih rest (word ++ [b]) hrest, hu]
          obtain ⟨w, ws, hw⟩ :
              ∃ w ws, splitWords (unescape rest) = w :: ws := by
            cases hsw : splitWords (unescape rest) with
            | nil => exact absurd hsw (splitWords_ne_nil _)
            | cons w ws => exact ⟨w, ws, rfl⟩
          rw [hw]
          simp [splitWords, hs, hw, prependFirst]

/-- C4: `split_flags` treats a backslash as escaping exactly the next byte
(the escaped byte, whatever it is, becomes literal content of the current
word and the escaping backslash never reaches the output), splits words at
unescaped space, tab, carriage return and newline, produces no empty words
from separator runs, and still emits a final unterminated word: it agrees
with the specification-level tokenizer built from exactly those rules. -/
theorem split_flags_escape_spec (out : List Nat) :
    split_flags out = specSplitFlags out := by
  have h := splitFlagsGo_spec out.length out [] le_rfl
  obtain ⟨w, ws, hw⟩ : ∃ w ws, splitWords (unescape out) = w :: ws := by
    cases hsw : splitWords (unescape out) with
    | nil => exact absurd hsw (splitWords_ne_nil _)
    | cons w ws => exact ⟨w, ws, rfl⟩
  unfold split_flags specSplitFlags
  rw [h, hw]
  simp [prependFirst]

theorem splitFlagsGo_clean : ∀ out word, 92 ∉ out →
    (∀ b ∈ word, sepByte b = false ∧ b ≠ 92) →
    ∀ w ∈ splitFlagsGo out word false,
      w ≠ [] ∧ ∀ b ∈ w, sepByte b = false ∧ b ≠ 92 := by
  intro out
  induction out with
  | nil =>
    intro word _ hword w hw
    by_cases hwe : word = []
    · subst hwe
      simp [splitFlagsGo] at hw
    · simp only [splitFlagsGo, if_neg hwe, List.mem_singleton] at hw
      subst hw
      exact ⟨hwe, hword⟩
  | cons b rest ih =>
    intro word hout hword w hw
    have hb : b ≠ 92 := by
      intro hc
      exact hout (hc ▸ List.mem_cons_self _ _)
    have hrest : 92 ∉ rest := fun hc => hout (List.mem_cons_of_mem _ hc)
    by_cases hs : sepByte b = true
    · rw [show splitFlagsGo (b :: rest) word false
          = (if word = [] then [] else [word]) ++ splitFlagsGo rest [] false from by
        simp [splitFlagsGo, hb, hs]] at hw
      rcases List.mem_append.mp hw with h1 | h2
      · by_cases hwe : word = []
        · subst hwe
          simp at h1
        · rw [if_neg hwe] at h1
          rw [List.mem_singleton.mp h1]
          exact ⟨hwe, hword⟩
      · exact ih [] hrest (by simp) w h2
    · rw [show splitFlagsGo (b :: rest) word false
          = splitFlagsGo rest (word ++ [b]) false from by
        simp [splitFlagsGo, hb, hs]] at hw
      refine ih (word ++ [b]) hrest ?_ w hw
      intro x hx
      rcases List.mem_append.mp hx with h1 | h2
      · exact hword x h1
      · rw [List.mem_singleton.mp h2]
        exact ⟨by simpa using hs, hb⟩

theorem splitFlagsGo_append : ∀ w out word,
    (∀ b ∈ w, sepByte b = false ∧ b ≠ 92) →
    splitFlagsGo (w ++ out) word false = splitFlagsGo out (word ++ w) false := by
  intro w
  induction w with
  | nil =>
    intro out word _
    simp
  | cons b bs ih =>
    intro out word hw
    have hb := hw b (List.mem_cons_self _ _)
    have step : splitFlagsGo (b :: (bs ++ out)) word false
        = splitFlagsGo (bs ++ out) (word ++ [b]) false := by
      simp [splitFlagsGo, hb.1, hb.2]
    rw [List.cons_append, step,
      ih out (word ++ [b]) (fun x hx => hw x (List.mem_cons_of_mem _ hx))]
    simp

theorem split_flags_joinSpace (ts : List (List Nat))
    (h : ∀ w ∈ ts, w ≠ [] ∧ ∀ b ∈ w, sepByte b = false ∧ b ≠ 92) :
    split_flags (joinSpace ts) = ts := by
  induction ts with
  | nil => simp [joinSpace, split_flags, splitFlagsGo]
  | cons t rest ih =>
    have ht := h t (List.mem_cons_self _ _)
    cases rest with
    | nil =>
      show splitFlagsGo (joinSpace [t]) [] false = [t]
      have happ := splitFlagsGo_append t [] [] ht.2
      simp only [List.append_nil, List.nil_append] at happ
      simp only [joinSpace]
      rw [happ]
      simp [splitFlagsGo, ht.1]
    | cons t2 rest2 =>
      show splitFlagsGo (joinSpace (t :: t2 :: rest2)) [] false = t :: t2 :: rest2
      have hjoin : joinSpace (t :: t2 :: rest2) = t ++ 32 :: joinSpace (t2 :: rest2) := by
        simp [joinSpace]
      rw [hjoin, splitFlagsGo_append t _ [] ht.2]
      have hstep : splitFlagsGo (32 :: joinSpace (t2 :: rest2)) ([] ++ t) false
          = (if ([] ++ t : List Nat) = [] then [] else [[] ++ t])
            ++ splitFlagsGo (joinSpace (t2 :: rest2)) [] false := by
        simp [splitFlagsGo, sepByte]
      rw [hstep]
      have ihr := ih (fun x hx => h x (List.mem_cons_of_mem _ hx))
      simp only [split_flags] at ihr
      simp [ht.1, ihr]

/-- C3 (amended): for every byte sequence containing no backslash byte,
tokenizing with `split_flags`, joining the tokens with single spaces and
tokenizing again yields the same token sequence.  (The unrestricted claim
fails: an escaped space survives inside a token and is re-split on the
second pass.) -/
theorem split_flags_rejoin (out : List Nat) (h : 92 ∉ out) :
    split_flags (joinSpace (split_flags out)) = split_flags out :=
  split_flags_joinSpace _ (splitFlagsGo_clean out [] h (by simp))

/-- C3 counterexample: the byte sequence `a\ b` (a backslash-escaped
space) tokenizes to the single word `a b`, which re-splits into two words
after joining, so the round trip is not the identity. -/
theorem split_flags_rejoin_cex :
    split_flags (joinSpace (split_flags [97, 92, 32, 98]))
      ≠ split_flags [97, 92, 32, 98] := by
  decide

/-- Witness for `split_flags_rejoin` at the backslash-free input `a b`. -/
theorem split_flags_rejoin_witness :
    92 ∉ [97, 32, 98] ∧
      split_flags (joinSpace (split_flags [97, 32, 98])) = split_flags [97, 32, 98] :=
  ⟨by decide, split_flags_rejoin [97, 32, 98] (by decide)⟩

/-- C1: `Config::is_static` decision order: a name on the static-exception
list resolves to dynamic unconditionally, overriding the explicit policy
and the environment; otherwise an explicitly configured policy wins;
otherwise the environment is consulted in order `<NAME>_STATIC_FORCE`
(force), `<NAME>_STATIC` (yes), `<NAME>_DYNAMIC` (no),
`PKG_CONFIG_ALL_STATIC` (yes), `PKG_CONFIG_ALL_DYNAMIC` (no), with
`<NAME>` the upper-cased name with `-` replaced by `_`, defaulting to
dynamic; in particular a set per-library static variable decides `yes`
regardless of the global variables. -/
theorem is_static_decision_order (cfg : Config) (env : Env) (name : String) :
    (cfg.statik_blacklist_contains name = true → cfg.is_static env name = Statik.no)
    ∧ (∀ s, cfg.statik_blacklist_contains name = false → cfg.statik = some s →
        cfg.is_static env name = s)
    ∧ (cfg.statik_blacklist_contains name = false → cfg.statik = none →
        cfg.is_static env name =
          (if (env (envify name ++ "_STATIC_FORCE")).isSome then Statik.force
            else if (env (envify name ++ "_STATIC")).isSome then Statik.yes
            else if (env (envify name ++ "_DYNAMIC")).isSome then Statik.no
            else if (env "PKG_CONFIG_ALL_STATIC").isSome then Statik.yes
            else if (env "PKG_CONFIG_ALL_DYNAMIC").isSome then Statik.no
            else Statik.no))
    ∧ (cfg.statik_blacklist_contains name = false → cfg.statik = none →
        env (envify name ++ "_STATIC_FORCE") = none →
        (env (envify name ++ "_STATIC")).isSome = true →
        cfg.is_static env name = Statik.yes) := by
  refine ⟨?_, ?_, ?_, ?_⟩
  · intro h
    simp [Config.is_static, h]
  · intro s hbl hs
    simp [Config.is_static, hbl, hs]
  · intro hbl hs
    simp [Config.is_static, Config.infer_static, Config.env_var, hbl, hs]
  · intro hbl hs hforce hstat
    simp [Config.is_static, Config.infer_static, Config.env_var, hbl, hs, hforce, hstat]

/-- Witness for `is_static_decision_order`: with both `FOO_STATIC` and
`PKG_CONFIG_ALL_STATIC` set, the per-library variable decides. -/
theorem is_static_decision_order_witness :
    Config.new.is_static
      (fun s => if s = "FOO_STATIC" then some "1"
        else if s = "PKG_CONFIG_ALL_STATIC" then some "1" else none) "foo"
      = Statik.yes :=
  (is_static_decision_order Config.new
    (fun s => if s = "FOO_STATIC" then some "1"
      else if s = "PKG_CONFIG_ALL_STATIC" then some "1" else none) "foo").2.2.2
    (by decide) rfl (by decide) (by decide)

/-- C7: with both `TARGET` and `HOST` set, `Config::targetted_env_var`
returns the first set variable among `BASE_<target>`, `BASE_<target with
- replaced by _>`, `HOST_BASE` when host equals target (else
`TARGET_BASE`), and plain `BASE`; with `TARGET` unset only plain `BASE`
is consulted. -/
theorem targetted_env_var_order (cfg : Config) (env : Env) (base target host : String) :
    (env "TARGET" = some target → env "HOST" = some host →
      cfg.targetted_env_var env base =
        firstSome [env (base ++ "_" ++ target),
          env (base ++ "_" ++ target.replace "-" "_"),
          env ((if host = target then "HOST" else "TARGET") ++ "_" ++ base),
          env base])
    ∧ (env "TARGET" = none → cfg.targetted_env_var env base = env base) := by
  constructor
  · intro hT hH
    simp only [Config.targetted_env_var, hT, hH, Config.env_var]
    cases env (base ++ "_" ++ target) <;>
      cases env (base ++ "_" ++ target.replace "-" "_") <;>
        cases env ((if host = target then "HOST" else "TARGET") ++ "_" ++ base) <;>
          cases env base <;>
            simp [firstSome, Option.orElse]
  · intro hT
    simp [Config.targetted_env_var, hT, Config.env_var]

/-- Witness for `targetted_env_var_order`: a target-suffixed variable
beats the plain one. -/
theorem targetted_env_var_order_witness :
    Config.new.targetted_env_var
      (fun s => if s = "TARGET" then some "arm-linux"
        else if s = "HOST" then some "x86"
        else if s = "PKG_CONFIG_PATH_arm-linux" then some "/t"
        else if s = "PKG_CONFIG_PATH" then some "/p" else none)
      "PKG_CONFIG_PATH" = some "/t" := by
  have h := (targetted_env_var_order Config.new
    (fun s => if s = "TARGET" then some "arm-linux"
      else if s = "HOST" then some "x86"
      else if s = "PKG_CONFIG_PATH_arm-linux" then some "/t"
      else if s = "PKG_CONFIG_PATH" then some "/p" else none)
    "PKG_CONFIG_PATH" "arm-linux" "x86").1 rfl rfl
  rw [h]
  decide

/-- C10: with `TARGET` set and `HOST` unset the targeted lookup fails for
every base (the `?` on the `HOST` read aborts it), without falling back
to plain `BASE` — the result is `none` for every environment satisfying
the two hypotheses, even one where `BASE` is set — so none of the three
passthrough variables is placed into the spawned command's environment. -/
theorem targetted_env_var_no_host (cfg : Config) (env : Env) (base t name : String)
    (qargs : List String) (hT : env "TARGET" = some t) (hH : env "HOST" = none) :
    cfg.targetted_env_var env base = none
    ∧ (cfg.command env name qargs).envs =
        (if cfg.print_system_libs then [("PKG_CONFIG_ALLOW_SYSTEM_LIBS", "1")] else []) := by
  have hbase : ∀ b, cfg.targetted_env_var env b = none := by
    intro b
    simp [Config.targetted_env_var, hT, hH]
  refine ⟨hbase base, ?_⟩
  cases hAV : cfg.atleast_version <;>
    by_cases hPS : cfg.print_system_libs = true <;>
      by_cases hst : cfg.is_static env name = Statik.no <;>
        simp [Config.command, hbase, hAV, hPS, hst, Cmd.new, Cmd.arg, Cmd.addArgs, Cmd.setEnv]

/-- Witness for `targetted_env_var_no_host`: `TARGET` set, `HOST` unset,
plain `PKG_CONFIG_PATH` set and yet not looked up nor passed through. -/
theorem targetted_env_var_no_host_witness :
    Config.new.targetted_env_var
      (fun s => if s = "TARGET" then some "arm-linux"
        else if s = "PKG_CONFIG_PATH" then some "/p" else none)
      "PKG_CONFIG_PATH" = none
    ∧ (Config.new.command
        (fun s => if s = "TARGET" then some "arm-linux"
          else if s = "PKG_CONFIG_PATH" then some "/p" else none)
        "foo" ["--libs", "--cflags"]).envs =
      (if Config.new.print_system_libs then [("PKG_CONFIG_ALLOW_SYSTEM_LIBS", "1")] else []) :=
  targetted_env_var_no_host Config.new
    (fun s => if s = "TARGET" then some "arm-linux"
      else if s = "PKG_CONFIG_PATH" then some "/p" else none)
    "PKG_CONFIG_PATH" "arm-linux" "foo" ["--libs", "--cflags"] (by decide) (by decide)

/-- C8: the argument list of the constructed command is `--static` first
(present iff the resolved policy is not dynamic), then the generated
query flags, then the user-supplied extra arguments in insertion order,
then the library spec last — the bare name, or `name >= version` when a
minimum version is configured. -/
theorem command_args_shape (cfg : Config) (env : Env) (name : String) (qargs : List String) :
    (cfg.command env name qargs).args =
      (if cfg.is_static env name ≠ Statik.no then ["--static"] else [])
        ++ qargs ++ cfg.extra_args
        ++ [match cfg.atleast_version with
            | some version => name ++ " >= " ++ version
            | none => name] := by
  cases h1 : cfg.targetted_env_var env "PKG_CONFIG_PATH" <;>
    cases h2 : cfg.targetted_env_var env "PKG_CONFIG_LIBDIR" <;>
      cases h3 : cfg.targetted_env_var env "PKG_CONFIG_SYSROOT_DIR" <;>
        cases hAV : cfg.atleast_version <;>
          by_cases hPS : cfg.print_system_libs = true <;>
            by_cases hst : cfg.is_static env name = Statik.no <;>
              simp [Config.command, h1, h2, h3, hAV, hPS, hst,
                Cmd.new, Cmd.arg, Cmd.addArgs, Cmd.setEnv]

theorem parseFlagStep_version (cfg : Config) (is_msvc : Bool) (statik : Statik)
    (macos : Bool) (fs : String → Bool) (st : ParseSt) (p : String × String) :
    (parseFlagStep cfg is_msvc statik macos fs st p).lib.version = st.lib.version := by
  simp only [parseFlagStep]
  repeat' split
  all_goals rfl

theorem foldl_step_version (cfg : Config) (is_msvc : Bool) (statik : Statik)
    (macos : Bool) (fs : String → Bool) :
    ∀ (parts : List (String × String)) (st : ParseSt),
      (parts.foldl (parseFlagStep cfg is_msvc statik macos fs) st).lib.version
        = st.lib.version := by
  intro parts
  induction parts with
  | nil => intro st; rfl
  | cons p rest ih =>
    intro st
    rw [List.foldl_cons, ih, parseFlagStep_version]

theorem parse_version (self : Library) (cfg : Config) (env : Env) (macos : Bool)
    (fs : String → Bool) (name : String) (words : List String) :
    (self.parse_libs_cflags cfg env macos fs name words).1.version = self.version := by
  show (parsePass1 cfg env macos fs name self words).lib.version = self.version
  exact foldl_step_version cfg (msvcOf env) (cfg.is_static env name) macos fs (partsOf words) _

/-- C2: the error order of `Config::probe`: a set per-library disable
variable yields `EnvNoPkgConfig` carrying that variable name, without
invoking the runner (the result is independent of it); otherwise an
unconfirmed cross compile (`HOST` differs from `TARGET` and
`PKG_CONFIG_ALLOW_CROSS` is unset) yields `CrossCompilation`; otherwise a
spawn failure of the flags or version command yields `Command` with that
command and its cause, a nonzero exit yields `Failure` with that command
and its captured output, and on success the classified descriptor is
returned with the trimmed version string. -/
theorem probe_error_sequence (cfg : Config) (env : Env) (macos : Bool)
    (fs : String → Bool) (runner : Runner) (name : String) :
    ((env (envify name ++ "_NO_PKG_CONFIG")).isSome = true →
      cfg.probe env macos fs runner name
          = Except.error (Err.envNoPkgConfig (envify name ++ "_NO_PKG_CONFIG"))
        ∧ ∀ runner2, cfg.probe env macos fs runner name = cfg.probe env macos fs runner2 name)
    ∧ (env (envify name ++ "_NO_PKG_CONFIG") = none →
      (env "HOST").getD "" ≠ (env "TARGET").getD "" →
      env "PKG_CONFIG_ALLOW_CROSS" = none →
      cfg.probe env macos fs runner name = Except.error Err.crossCompilation)
    ∧ (env (envify name ++ "_NO_PKG_CONFIG") = none →
      target_supported env = true →
      (∀ cause, runner (cfg.command env name ["--libs", "--cflags"]) = Except.error cause →
        cfg.probe env macos fs runner name
          = Except.error (Err.command (cfg.command env name ["--libs", "--cflags"]) cause))
      ∧ (∀ out, runner (cfg.command env name ["--libs", "--cflags"]) = Except.ok out →
          out.success = false →
          cfg.probe env macos fs runner name
            = Except.error (Err.failure (cfg.command env name ["--libs", "--cflags"]) out))
      ∧ (∀ out, runner (cfg.command env name ["--libs", "--cflags"]) = Except.ok out →
          out.success = true →
          (∀ cause, runner (cfg.command env name ["--modversion"]) = Except.error cause →
            cfg.probe env macos fs runner name
              = Except.error (Err.command (cfg.command env name ["--modversion"]) cause))
          ∧ (∀ out2, runner (cfg.command env name ["--modversion"]) = Except.ok out2 →
              out2.success = false →
              cfg.probe env macos fs runner name
                = Except.error (Err.failure (cfg.command env name ["--modversion"]) out2))
          ∧ (∀ out2, runner (cfg.command env name ["--modversion"]) = Except.ok out2 →
              out2.success = true →
              cfg.probe env macos fs runner name
                = Except.ok { (Library.new.parse_libs_cflags cfg env macos fs name
                      ((split_flags out.stdout).map decodeBytes)).1 with
                    version := (decodeBytes out2.stdout).trim }))) := by
  refine ⟨?_, ?_, ?_⟩
  · intro habort
    constructor
    · simp [Config.probe, habort]
    · intro runner2
      simp [Config.probe, habort]
  · intro habort hneq hcross
    have hts : target_supported env = false := by
      simp [target_supported, hcross, beq_eq_false_iff_ne]
      exact hneq
    simp [Config.probe, habort, hts]
  · intro habort hts
    refine ⟨?_, ?_, ?_⟩
    · intro cause hrun
      simp [Config.probe, habort, hts, run, hrun]
    · intro out hrun hsucc
      simp [Config.probe, habort, hts, run, hrun, hsucc]
    · intro out hrun hsucc
      refine ⟨?_, ?_, ?_⟩
      · intro cause2 hrun2
        simp [Config.probe, habort, hts, run, hrun, hsucc, hrun2]
      · intro out2 hrun2 hsucc2
        simp [Config.probe, habort, hts, run, hrun, hsucc, hrun2, hsucc2]
      · intro out2 hrun2 hsucc2
        have hv : (Library.new.parse_libs_cflags cfg env macos fs name
            ((split_flags out.stdout).map decodeBytes)).1.version = "" :=
          parse_version Library.new cfg env macos fs name _
        simp [Config.probe, habort, hts, run, hrun, hsucc, hrun2, hsucc2,
          Library.parse_modversion, hv, String.empty_append]

/-- Witness for `probe_error_sequence`: a set `FOO_NO_PKG_CONFIG` aborts
the probe with that variable's name. -/
theorem probe_error_sequence_witness :
    Config.new.probe (fun s => if s = "FOO_NO_PKG_CONFIG" then some "1" else none)
      false (fun _ => false) (fun _ => Except.error "io") "foo"
      = Except.error (Err.envNoPkgConfig (envify "foo" ++ "_NO_PKG_CONFIG")) :=
  ((probe_error_sequence Config.new
    (fun s => if s = "FOO_NO_PKG_CONFIG" then some "1" else none)
    false (fun _ => false) (fun _ => Except.error "io") "foo").1 (by decide)).1

theorem parseFlagStep_dirs (cfg : Config) (is_msvc : Bool) (statik : Statik)
    (macos : Bool) (fs : String → Bool) (st : ParseSt) (p : String × String) :
    (parseFlagStep cfg is_msvc statik macos fs st p).dirs =
      st.dirs ++ (if p.1 = "-L" then [p.2] else []) := by
  simp only [parseFlagStep]
  repeat' split
  all_goals simp_all

/-- C5: classifying a `-l` token with remainder `v`: under an MSVC target
the runtime-provided libraries `m`, `c`, `pthread` are skipped entirely
(no library entry, no metadata); otherwise `v` is always appended to the
library sequence, and the metadata line requests static linking exactly
when the resolved policy is force-static, or it is prefer-static and
`lib<v>.a` is locatable in a previously seen `-L` directory outside the
system roots, and in addition `v` is not on the static-exception list.
The first conjunct identifies the directory state any later token sees
with exactly the `-L` remainders already processed. -/
theorem parse_lib_token (cfg : Config) (is_msvc : Bool) (statik : Statik)
    (macos : Bool) (fs : String → Bool) (st : ParseSt) (v : String)
    (hm : cfg.cargo_metadata = true) (hv : v ≠ "") :
    (∀ (parts : List (String × String)) (st0 : ParseSt),
        (parts.foldl (parseFlagStep cfg is_msvc statik macos fs) st0).dirs =
          st0.dirs ++ parts.filterMap (fun p => if p.1 = "-L" then some p.2 else none))
    ∧ (is_msvc = true → (v = "m" ∨ v = "c" ∨ v = "pthread") →
        parseFlagStep cfg is_msvc statik macos fs st ("-l", v) = st)
    ∧ ((is_msvc = true → v ≠ "m" ∧ v ≠ "c" ∧ v ≠ "pthread") →
        parseFlagStep cfg is_msvc statik macos fs st ("-l", v) =
          { st with
            lib := { st.lib with libs := st.lib.libs ++ [v] }
            metaLines := st.metaLines ++
              [if (statik = Statik.force
                    ∨ (statik = Statik.yes ∧ is_static_available macos fs v st.dirs = true))
                  ∧ cfg.statik_blacklist_contains v = false
                then "cargo:rustc-link-lib=static=" ++ v
                else "cargo:rustc-link-lib=" ++ v] }) := by
  refine ⟨?_, ?_, ?_⟩
  · intro parts
    induction parts with
    | nil => intro st0; simp
    | cons p rest ih =>
      intro st0
      rw [List.foldl_cons, ih, parseFlagStep_dirs]
      by_cases hp : p.1 = "-L" <;>
        simp [hp, List.filterMap_cons, List.append_assoc]
  · intro hmsvc hvmem
    rcases hvmem with h | h | h <;> subst h <;>
      simp [parseFlagStep, hmsvc]
  · intro hnot
    have hskip : (is_msvc && (v == "m" || v == "c" || v == "pthread")) = false := by
      cases hmsvc : is_msvc with
      | false => simp
      | true =>
        obtain ⟨h1, h2, h3⟩ := hnot hmsvc
        simp [h1, h2, h3]
    cases statik <;>
      by_cases hbl : cfg.statik_blacklist_contains v = true <;>
        by_cases hav : is_static_available macos fs v st.dirs = true <;>
          simp [parseFlagStep, hskip, hbl, hav, hm, Config.print_metadata]
    all_goals rw [← String.append_assoc]
    all_goals congr 1

/-- Witness for `parse_lib_token`: a `-l z` token under the dynamic
policy appends `z` and emits a dynamic link line. -/
theorem parse_lib_token_witness :
    parseFlagStep Config.new false Statik.no false (fun _ => false)
        { lib := Library.new, dirs := [], metaLines := [] } ("-l", "z") =
      { lib := { Library.new with libs := ["z"] },
        dirs := [], metaLines := ["cargo:rustc-link-lib=z"] } := by
  have h := (parse_lib_token Config.new false Statik.no false (fun _ => false)
    { lib := Library.new, dirs := [], metaLines := [] } "z" rfl (by decide)).2.2
    (by decide)
  rw [h]
  decide

theorem splitOnChar_ne_nil (c : Char) (l : List Char) : splitOnChar c l ≠ [] := by
  cases l with
  | nil => simp [splitOnChar]
  | cons b rest =>
    simp only [splitOnChar]
    split
    · simp
    · cases h : splitOnChar c rest <;> simp

theorem splitOnChar_append (c : Char) (n rest : List Char) (h : c ∉ n) :
    splitOnChar c (n ++ c :: rest) = n :: splitOnChar c rest := by
  induction n with
  | nil => simp [splitOnChar]
  | cons b n2 ih =>
    have hb : ¬ b = c := fun hc => h (List.mem_cons.mpr (Or.inl hc.symm))
    have ih2 := ih (fun hc => h (List.mem_cons_of_mem _ hc))
    simp [splitOnChar, hb, ih2]

theorem splitOnChar_not_mem (c : Char) (l : List Char) (h : c ∉ l) :
    splitOnChar c l = [l] := by
  induction l with
  | nil => simp [splitOnChar]
  | cons b rest ih =>
    have hb : ¬ b = c := fun hc => h (List.mem_cons.mpr (Or.inl hc.symm))
    have ih2 := ih (fun hc => h (List.mem_cons_of_mem _ hc))
    simp [splitOnChar, hb, ih2]

theorem splitOnChar_headD (c : Char) (l : List Char) :
    (splitOnChar c l).headD [] = l.takeWhile (fun x => x != c) := by
  induction l with
  | nil => simp [splitOnChar]
  | cons b rest ih =>
    by_cases hb : b = c
    · subst hb
      simp [splitOnChar, List.takeWhile_cons]
    · obtain ⟨w, ws, hw⟩ : ∃ w ws, splitOnChar c rest = w :: ws := by
        cases hsw : splitOnChar c rest with
        | nil => exact absurd hsw (splitOnChar_ne_nil _ _)
        | cons w ws => exact ⟨w, ws, rfl⟩
      have ih2 := ih
      rw [hw] at ih2
      simp only [List.headD_cons] at ih2
      simp [splitOnChar, hb, hw, List.takeWhile_cons, ih2]

theorem lookup_insertDefine (m : List (String × Option String)) (k : String)
    (v : Option String) :
    lookupDefine (insertDefine m k v) k = some v := by
  unfold lookupDefine insertDefine
  rw [List.find?_append]
  have h1 : List.find? (fun p => p.1 == k) (m.filter (fun p => p.1 != k)) = none := by
    rw [List.find?_eq_none]
    intro x hx
    have h2 := (List.mem_filter.mp hx).2
    simp only [bne_iff_ne, ne_eq] at h2
    simp [h2]
  rw [h1]
  simp

/-- C6 counterexample: the token `-Dkey=a=b` records the define value
`a`, the segment between the first and second `=`, not the whole
remainder `a=b` as the claim states. -/
theorem define_value_cex :
    lookupDefine ((Library.new.parse_libs_cflags Config.new (fun _ => none) false
        (fun _ => false) "x" ["-Dkey=a=b"]).1.defines) "key" = some (some "a")
    ∧ some (some "a") ≠ some (some ("a=b" : String)) := by
  constructor
  · decide
  · decide

/-- C6 (amended): a `-D` token's remainder is split on `=`; the first
segment is the define name, and the value is the segment between the
first and second `=` (the whole part after the first `=` when no second
one occurs), or absent when the remainder contains no `=` at all; the
update replaces exactly that key's binding. -/
theorem define_token_behavior (cfg : Config) (is_msvc : Bool) (statik : Statik)
    (macos : Bool) (fs : String → Bool) (st : ParseSt) (r : String) :
    (parseFlagStep cfg is_msvc statik macos fs st ("-D", r) =
      { st with lib := { st.lib with defines := insertDefine st.lib.defines (String.mk ((splitOnChar '=' r.data).headD [])) (((splitOnChar '=' r.data)[1]?).map String.mk) } })
    ∧ (∀ n rest : List Char, '=' ∉ n → r.data = n ++ '=' :: rest →
        String.mk ((splitOnChar '=' r.data).headD []) = String.mk n
        ∧ ((splitOnChar '=' r.data)[1]?).map String.mk
            = some (String.mk (rest.takeWhile (fun c => c != '='))))
    ∧ ('=' ∉ r.data →
        String.mk ((splitOnChar '=' r.data).headD []) = r
        ∧ ((splitOnChar '=' r.data)[1]?).map String.mk = none)
    ∧ (∀ m k v, lookupDefine (insertDefine m k v) k = some v) := by
  refine ⟨?_, ?_, ?_, ?_⟩
  · simp [parseFlagStep]
  · intro n rest hn hr
    rw [hr, splitOnChar_append _ _ _ hn]
    constructor
    · simp
    · obtain ⟨w, ws, hw⟩ : ∃ w ws, splitOnChar '=' rest = w :: ws := by
        cases hsw : splitOnChar '=' rest with
        | nil => exact absurd hsw (splitOnChar_ne_nil _ _)
        | cons w ws => exact ⟨w, ws, rfl⟩
      have hh := splitOnChar_headD '=' rest
      rw [hw] at hh
      simp only [List.headD_cons] at hh
      simp [hw, hh]
  · intro h
    rw [splitOnChar_not_mem _ _ h]
    constructor
    · cases r with
      | mk d => rfl
    · rfl
  · intro m k v
    exact lookup_insertDefine m k v

/-- Witness for `define_token_behavior`: the remainder `key=a=b` splits
into the name `key` and the value `a`. -/
theorem define_token_behavior_witness :
    ('=' ∉ ("key" : String).data)
    ∧ (String.mk ((splitOnChar '=' ("key=a=b" : String).data).headD [])
          = String.mk ("key" : String).data
        ∧ ((splitOnChar '=' ("key=a=b" : String).data)[1]?).map String.mk
          = some (String.mk (("a=b" : String).data.takeWhile (fun c => c != '=')))) := by
  refine ⟨by decide, ?_⟩
  exact (define_token_behavior Config.new false Statik.no false (fun _ => false)
    { lib := Library.new, dirs := [], metaLines := [] } "key=a=b").2.1
    ("key" : String).data ("a=b" : String).data (by decide) (by decide)

theorem parseFlagStep_frameworks (cfg : Config) (is_msvc : Bool) (statik : Statik)
    (macos : Bool) (fs : String → Bool) (st : ParseSt) (p : String × String) :
    (parseFlagStep cfg is_msvc statik macos fs st p).lib.frameworks = st.lib.frameworks := by
  simp only [parseFlagStep]
  repeat' split
  all_goals rfl

theorem foldl_step_frameworks (cfg : Config) (is_msvc : Bool) (statik : Statik)
    (macos : Bool) (fs : String → Bool) :
    ∀ (parts : List (String × String)) (st : ParseSt),
      (parts.foldl (parseFlagStep cfg is_msvc statik macos fs) st).lib.frameworks
        = st.lib.frameworks := by
  intro parts
  induction parts with
  | nil => intro st; rfl
  | cons p rest ih =>
    intro st
    rw [List.foldl_cons, ih, parseFlagStep_frameworks]

/-- C9 counterexample: in the token sequence `-framework -framework x`
the second `-framework` token is immediately followed by `x`, yet `x` is
not appended to the frameworks: the scan already consumed that second
`-framework` as the framework name paired with the first. -/
theorem framework_scan_cex :
    (expandWl ["-framework", "-framework", "x"])[1]? = some "-framework"
    ∧ (expandWl ["-framework", "-framework", "x"])[2]? = some "x"
    ∧ (Library.new.parse_libs_cflags Config.new (fun _ => none) false (fun _ => false)
        "n" ["-framework", "-framework", "x"]).1.frameworks = ["-framework"]
    ∧ "x" ∉ (Library.new.parse_libs_cflags Config.new (fun _ => none) false (fun _ => false)
        "n" ["-framework", "-framework", "x"]).1.frameworks := by
  refine ⟨by decide, by decide, by decide, by decide⟩

/-- C9 (amended): the second pass expands every `-Wl,`-prefixed token by
splitting its remainder on commas, then scans the expanded sequence left
to right: each `-framework` token that is not itself consumed as a
framework name appends the immediately following token (if any) to the
framework sequence with a `link framework` metadata line, scanning
resuming after the consumed pair, and a trailing `-framework` contributes
nothing. -/
theorem framework_scan_behavior (cfg : Config) (env : Env) (macos : Bool)
    (fs : String → Bool) (name : String) (self : Library) (words : List String)
    (t u : String) (rest : List String)
    (hm : cfg.cargo_metadata = true) (ht : t ≠ "-framework") :
    ((self.parse_libs_cflags cfg env macos fs name words).1.frameworks
        = self.frameworks ++ frameworkScan (expandWl words))
    ∧ (∀ (w : String) (ws : List String), expandWl (w :: ws) =
        (if startsWithChars w.data "-Wl,".data then
          (splitOnChar ',' (w.data.drop 4)).map String.mk
          else [w]) ++ expandWl ws)
    ∧ frameworkScan ("-framework" :: u :: rest) = u :: frameworkScan rest
    ∧ frameworkScan ["-framework"] = []
    ∧ frameworkScan (t :: rest) = frameworkScan rest
    ∧ ((self.parse_libs_cflags cfg env macos fs name words).2 =
        (parsePass1 cfg env macos fs name self words).metaLines
          ++ (frameworkScan (expandWl words)).flatMap
              (fun l => ["cargo:rustc-link-lib=framework=" ++ l])) := by
  refine ⟨?_, ?_, ?_, ?_, ?_, ?_⟩
  · show (parsePass1 cfg env macos fs name self words).lib.frameworks
        ++ frameworkScan (expandWl words)
      = self.frameworks ++ frameworkScan (expandWl words)
    rw [show (parsePass1 cfg env macos fs name self words).lib.frameworks = self.frameworks
      from foldl_step_frameworks cfg (msvcOf env) (cfg.is_static env name) macos fs
        (partsOf words) { lib := self, dirs := [], metaLines := [] }]
  · intro w ws
    simp [expandWl]
  · simp [frameworkScan]
  · rfl
  · rw [frameworkScan.eq_def]
    simp [ht]
  · show (parsePass1 cfg env macos fs name self words).metaLines
        ++ (frameworkScan (expandWl words)).flatMap
            (fun l => cfg.print_metadata ("rustc-link-lib=framework=" ++ l))
      = _
    have hc : ∀ l : String,
        "cargo:" ++ ("rustc-link-lib=framework=" ++ l)
          = "cargo:rustc-link-lib=framework=" ++ l := by
      intro l
      rw [← String.append_assoc]
      congr 1
    simp [Config.print_metadata, hm, hc]

/-- Witness for `framework_scan_behavior`: a `-Wl,-framework,Cocoa`
linker-passthrough token is recognized like a bare pair. -/
theorem framework_scan_behavior_witness :
    (Library.new.parse_libs_cflags Config.new (fun _ => none) false (fun _ => false)
        "n" ["-Wl,-framework,Cocoa"]).1.frameworks
      = Library.new.frameworks ++ frameworkScan (expandWl ["-Wl,-framework,Cocoa"])
    ∧ frameworkScan (expandWl ["-Wl,-framework,Cocoa"]) = ["Cocoa"] := by
  refine ⟨?_, by decide⟩
  exact (framework_scan_behavior Config.new (fun _ => none) false (fun _ => false) "n"
    Library.new ["-Wl,-framework,Cocoa"] "x" "y" [] rfl (by decide)).1

end PkgConfig
